import Mathlib

/-!
Verification of the structured-data recovery pipeline of `DocumentAnalysis.tsx`
(`parseNestedClauses`, the `parseMethod` / `objectClauses` computation and
`generateSummary`), over a shallow embedding of the relevant JavaScript
semantics: JS values, nullish coalescing, truthiness, `JSON.parse`,
`JSON.stringify`, and the concrete regular-expression replacements the code
performs.  Strings are modelled as `List Char`; thrown exceptions as
`Except Unit`.
-/

namespace RagContract

/-- JavaScript runtime values, as far as the pipeline distinguishes them.
Numbers are modelled as integers; every numeric literal the pipeline's data
paths touch is integral. -/
inductive JsValue where
  | vNull
  | vUndef
  | vBool (b : Bool)
  | vNum (n : Int)
  | vStr (s : List Char)
  | vArr (elems : List JsValue)
  | vObj (fields : List (List Char × JsValue))

open JsValue

/-- `null` or `undefined`: exactly the values on which property access throws
and which `??` skips. -/
def isNullish : JsValue → Bool
  | vNull => true
  | vUndef => true
  | _ => false

/-- JS truthiness. -/
def truthy : JsValue → Bool
  | vNull => false
  | vUndef => false
  | vBool b => b
  | vNum n => n != 0
  | vStr s => s ≠ []
  | vArr _ => true
  | vObj _ => true

/-- Nullish coalescing `a ?? b`. -/
def jsNN (a b : JsValue) : JsValue := if isNullish a then b else a

/-- Property read on a value already known not to be nullish (`v.k`).
Objects look the key up (first binding wins); primitives and arrays have none
of the properties the pipeline reads, so yield `undefined`. -/
def getF (v : JsValue) (k : List Char) : JsValue :=
  match v with
  | vObj fields =>
    match fields.find? (fun f => f.1 = k) with
    | some f => f.2
    | none => vUndef
  | _ => vUndef

/-- Optional-chained property read `v?.k`. -/
def optGet (v : JsValue) (k : List Char) : JsValue :=
  if isNullish v then vUndef else getF v k

/-- Index `v[0]` on a non-nullish value: first array element, first character
of a string, or the `"0"` key of an object. -/
def idx0 : JsValue → JsValue
  | vArr (x :: _) => x
  | vArr [] => vUndef
  | vStr (c :: _) => vStr [c]
  | vStr [] => vUndef
  | vObj fields => getF (vObj fields) ['0']
  | _ => vUndef

/-- Optional-chained index `v?.[0]`. -/
def optIdx0 (v : JsValue) : JsValue :=
  if isNullish v then vUndef else idx0 v

/-! ### Character classes, trimming, case folding -/

/-- The JavaScript regex class `\s` restricted to the characters this code can
meet: space, tab, newline, carriage return, vertical tab, form feed. -/
def isWsJs (c : Char) : Bool :=
  c == ' ' || c == '\t' || c == '\n' || c == '\r' || c == Char.ofNat 11 || c == Char.ofNat 12

/-- JSON insignificant whitespace (`JSON.parse`): space, tab, newline, CR. -/
def isWsJson (c : Char) : Bool :=
  c == ' ' || c == '\t' || c == '\n' || c == '\r'

def skipWsJson (l : List Char) : List Char := l.dropWhile (fun c => isWsJson c)

/-- `String.prototype.trim()`: leading and trailing whitespace removed. -/
def trimJs (l : List Char) : List Char :=
  List.rdropWhile (fun c => isWsJs c) (l.dropWhile (fun c => isWsJs c))

/-- `String.prototype.toLowerCase()` (ASCII, which is all the code produces). -/
def jsLower (l : List Char) : List Char := l.map Char.toLower

/-! ### String coercion (`.toString()` / `Array.prototype.join`) -/

mutual

/-- JS string coercion of a value.  At every call site in the pipeline the
argument is non-nullish (it sits behind `??` with a string default); for
nullish values we return the empty string, which is `Array.prototype.join`'s
treatment of nullish elements — the only place nullish values can reach this
function recursively. -/
def jsToStringT : JsValue → List Char
  | vNull => []
  | vUndef => []
  | vBool true => "true".data
  | vBool false => "false".data
  | vNum n => (toString n).data
  | vStr s => s
  | vArr xs => List.intercalate ",".data (jsToStringElems xs)
  | vObj _ => "[object Object]".data

/-- Element-wise coercion for array join. -/
def jsToStringElems : List JsValue → List (List Char)
  | [] => []
  | x :: xs => jsToStringT x :: jsToStringElems xs

end

/-! ### The fence cleaner
`candidate.replace(/```(?:json)?\s*/i, '').replace(/\s*```$/i, '').trim()`
(lines 247 and 390 of DocumentAnalysis.tsx). -/

def fence3 : List Char := "```".data

/-- First regex: remove the FIRST occurrence of three backticks, an optional
case-insensitive `json` tag, and the following whitespace run.  The pattern
carries no `^` anchor, so the occurrence may sit anywhere in the string. -/
def fenceRemove : List Char → List Char
  | [] => []
  | c :: rest =>
    if (c :: rest).take 3 = fence3 then
      let r1 := (c :: rest).drop 3
      let r2 := if (r1.take 4).map Char.toLower = "json".data then r1.drop 4 else r1
      r2.dropWhile (fun ch => isWsJs ch)
    else c :: fenceRemove rest

/-- Second regex `/\s*```$/i`: if the string ends in three backticks, drop
them together with the maximal whitespace run just before them. -/
def trailFenceRemove (l : List Char) : List Char :=
  let r := l.reverse
  if r.take 3 = fence3 then ((r.drop 3).dropWhile (fun ch => isWsJs ch)).reverse else l

/-- The full cleaning step applied to a candidate block. -/
def cleanFence (s : List Char) : List Char := trimJs (trailFenceRemove (fenceRemove s))

/-! ### Fallback 1: `cleaned.replace(/^\"|\"$/g, '')` -/

/-- Remove one leading and one trailing double quote when present. -/
def unquoteWrapper (l : List Char) : List Char :=
  let l1 := if l.head? = some '"' then l.tail else l
  if l1.getLast? = some '"' then l1.dropLast else l1

/-! ### Fallback 1b:
`cleaned.replace(/\\n/g, '').replace(/\\r/g, '').replace(/\\"/g, '"')` -/

/-- Global replacement of the two-character sequence backslash-`b` by nothing
(left-to-right, non-overlapping). -/
def stripPair (b : Char) : List Char → List Char
  | [] => []
  | [c] => [c]
  | c1 :: c2 :: rest =>
    if c1 = '\\' ∧ c2 = b then stripPair b rest else c1 :: stripPair b (c2 :: rest)

/-- Global replacement of backslash-quote by a double quote. -/
def unescQuote : List Char → List Char
  | [] => []
  | [c] => [c]
  | c1 :: c2 :: rest =>
    if c1 = '\\' ∧ c2 = '"' then '"' :: unescQuote rest else c1 :: unescQuote (c2 :: rest)

/-- The whole Fallback 1b preprocessing, in source order: first every `\n`
pair is removed, then every `\r` pair, then every `\"` becomes `"`. -/
def unescapeSeqs (l : List Char) : List Char := unescQuote (stripPair 'r' (stripPair 'n' l))

/-! ### The per-object regex `/{[\s\S]*?}/g` -/

/-- One left-to-right pass implementing `/{[\s\S]*?}/g`: outside a match
(`acc = none`) the scan looks for an opening brace; inside a match it
accumulates (reversed) until the NEXT closing brace, emits the span, and
resumes after it.  A trailing span with no closing brace yields no match —
exactly the non-greedy regex's behaviour. -/
def objScanAux : Option (List Char) → List Char → List (List Char)
  | _, [] => []
  | none, c :: rest =>
    if c = '{' then objScanAux (some []) rest else objScanAux none rest
  | some acc, c :: rest =>
    if c = '}' then ('{' :: acc.reverse ++ ['}']) :: objScanAux none rest
    else objScanAux (some (c :: acc)) rest

/-- All non-overlapping matches of `/{[\s\S]*?}/g`: each match runs from an
opening brace to the next closing brace; scanning resumes after the match. -/
def objSpans (l : List Char) : List (List Char) := objScanAux none l

/-! ### `indexOf` / `lastIndexOf` / the bracket substring -/

def firstIdxOf (c : Char) : List Char → Option Nat
  | [] => none
  | x :: rest => if x = c then some 0 else (firstIdxOf c rest).map (· + 1)

def lastIdxOf (c : Char) (l : List Char) : Option Nat :=
  (firstIdxOf c l.reverse).map (fun i => l.length - 1 - i)

/-- `cleaned.substring(firstBracket, lastBracket + 1)` guarded by
`firstBracket !== -1 && lastBracket !== -1 && lastBracket > firstBracket`. -/
def bracketSub (l : List Char) : Option (List Char) :=
  match firstIdxOf '[' l, lastIdxOf ']' l with
  | some fb, some lb => if fb < lb then some ((l.drop fb).take (lb + 1 - fb)) else none
  | _, _ => none

/-! ### `JSON.parse`

A strict JSON reader over `List Char`.  Numbers are read as integer literals
(an optional minus sign and a digit run) — the integral fragment is the only
one any data path of this component produces or consumes.  String escapes
cover the JSON simple escapes; raw control characters are rejected as in
`JSON.parse`.  Recursion is by fuel; `jsonParse` supplies `length + 1`,
ample because every nested parser call first consumes a character. -/

/-- Contents of a string literal after the opening quote: returns the decoded
characters and the remainder after the closing quote. -/
def parseStringBody : List Char → Option (List Char × List Char)
  | [] => none
  | c :: rest =>
    if c = '"' then some ([], rest)
    else if c = '\\' then
      match rest with
      | [] => none
      | e :: rest2 =>
        let esc : Option Char :=
          if e = '"' then some '"'
          else if e = '\\' then some '\\'
          else if e = '/' then some '/'
          else if e = 'n' then some '\n'
          else if e = 'r' then some '\r'
          else if e = 't' then some '\t'
          else if e = 'b' then some (Char.ofNat 8)
          else if e = 'f' then some (Char.ofNat 12)
          else none
        match esc with
        | some ch =>
          match parseStringBody rest2 with
          | some (s, r) => some (ch :: s, r)
          | none => none
        | none => none
    else if c.toNat < 32 then none
    else
      match parseStringBody rest with
      | some (s, r) => some (c :: s, r)
      | none => none

/-- A non-empty digit run, as a natural number, with the remainder. -/
def parseDigits (l : List Char) : Option (Nat × List Char) :=
  let ds := l.takeWhile (fun c => c.isDigit)
  if ds = [] then none
  else some (ds.foldl (fun acc c => acc * 10 + (c.toNat - 48)) 0, l.dropWhile (fun c => c.isDigit))

mutual

/-- One JSON value, preceded by optional whitespace. -/
def parseVal : Nat → List Char → Option (JsValue × List Char)
  | 0, _ => none
  | f + 1, input =>
    match skipWsJson input with
    | [] => none
    | c :: rest =>
      if c = '[' then
        match skipWsJson rest with
        | ']' :: r2 => some (vArr [], r2)
        | r2 =>
          match parseVal f r2 with
          | some (v, r3) => parseArrRest f [v] r3
          | none => none
      else if c = '{' then
        match skipWsJson rest with
        | '}' :: r2 => some (vObj [], r2)
        | r2 =>
          match parseMember f r2 with
          | some (kv, r3) => parseObjRest f [kv] r3
          | none => none
      else if c = '"' then
        match parseStringBody rest with
        | some (s, r2) => some (vStr s, r2)
        | none => none
      else if c = 't' then
        if rest.take 3 = "rue".data then some (vBool true, rest.drop 3) else none
      else if c = 'f' then
        if rest.take 4 = "alse".data then some (vBool false, rest.drop 4) else none
      else if c = 'n' then
        if rest.take 3 = "ull".data then some (vNull, rest.drop 3) else none
      else if c = '-' then
        match parseDigits rest with
        | some (n, r2) => some (vNum (-(n : Int)), r2)
        | none => none
      else if c.isDigit then
        match parseDigits (c :: rest) with
        | some (n, r2) => some (vNum (n : Int), r2)
        | none => none
      else none

/-- After the first element of an array: `,`-separated further elements until
`]`.  The accumulator holds the elements read so far, reversed. -/
def parseArrRest : Nat → List JsValue → List Char → Option (JsValue × List Char)
  | 0, _, _ => none
  | f + 1, acc, l =>
    match skipWsJson l with
    | ']' :: r => some (vArr acc.reverse, r)
    | ',' :: r =>
      match parseVal f r with
      | some (v, r2) => parseArrRest f (v :: acc) r2
      | none => none
    | _ => none

/-- One `"key": value` member. -/
def parseMember : Nat → List Char → Option ((List Char × JsValue) × List Char)
  | 0, _ => none
  | f + 1, l =>
    match skipWsJson l with
    | '"' :: rest =>
      match parseStringBody rest with
      | some (k, r2) =>
        match skipWsJson r2 with
        | ':' :: r3 =>
          match parseVal f r3 with
          | some (v, r4) => some ((k, v), r4)
          | none => none
        | _ => none
      | none => none
    | _ => none

/-- After the first member of an object: `,`-separated further members until
`}`. -/
def parseObjRest : Nat → List (List Char × JsValue) → List Char → Option (JsValue × List Char)
  | 0, _, _ => none
  | f + 1, acc, l =>
    match skipWsJson l with
    | '}' :: r => some (vObj acc.reverse, r)
    | ',' :: r =>
      match parseMember f r with
      | some (kv, r2) => parseObjRest f (kv :: acc) r2
      | none => none
    | _ => none

end

/-- `JSON.parse` on a whole string: one value, with nothing but whitespace
after it. -/
def jsonParse (l : List Char) : Option JsValue :=
  match parseVal (l.length + 1) l with
  | some (v, r) => if skipWsJson r = [] then some v else none
  | none => none

/-! ### `JSON.stringify` -/

def hexDigitChar (k : Nat) : Char :=
  if k < 10 then Char.ofNat (48 + k) else Char.ofNat (87 + k)

/-- JSON string escaping of one character. -/
def escJsonChar (c : Char) : List Char :=
  if c = '"' then ['\\', '"']
  else if c = '\\' then ['\\', '\\']
  else if c = '\n' then ['\\', 'n']
  else if c = '\r' then ['\\', 'r']
  else if c = '\t' then ['\\', 't']
  else if c = Char.ofNat 8 then ['\\', 'b']
  else if c = Char.ofNat 12 then ['\\', 'f']
  else if c.toNat < 32 then
    ['\\', 'u', '0', '0', hexDigitChar (c.toNat / 16), hexDigitChar (c.toNat % 16)]
  else [c]

def quoteJson (s : List Char) : List Char :=
  '"' :: (s.flatMap escJsonChar) ++ ['"']

mutual

/-- `JSON.stringify`.  `undefined` at the top level yields no string (the
JS call returns `undefined`); inside arrays it prints as `null`; object
members with `undefined` values are skipped.  Field order is insertion
order, as in V8. -/
def stringifyVal : JsValue → Option (List Char)
  | vUndef => none
  | vNull => some "null".data
  | vBool true => some "true".data
  | vBool false => some "false".data
  | vNum n => some (toString n).data
  | vStr s => some (quoteJson s)
  | vArr xs => some ('[' :: List.intercalate ",".data (stringifyElems xs) ++ [']'])
  | vObj fs => some ('{' :: List.intercalate ",".data (stringifyMembers fs) ++ ['}'])

def stringifyElems : List JsValue → List (List Char)
  | [] => []
  | x :: xs =>
    (match stringifyVal x with
     | some s => s
     | none => "null".data) :: stringifyElems xs

def stringifyMembers : List (List Char × JsValue) → List (List Char)
  | [] => []
  | (k, v) :: fs =>
    match stringifyVal v with
    | some s => (quoteJson k ++ ':' :: s) :: stringifyMembers fs
    | none => stringifyMembers fs

end

/-! ### Clause records and the two normalizers
(DocumentAnalysis.tsx lines 231–237, the `normalize` helper, also repeated
verbatim at lines 393–399 for `objectClauses`; and lines 324–333, the
direct-array fallback's inline mapping.) -/

/-- The normalized clause shape.  Fields keep the dynamic `JsValue` type:
the source copies whatever value the lookup chain found (e.g. a number can
land in `text`), except `risk`, which is always built by
`(...).toString().toLowerCase()` and therefore always holds a `vStr`. -/
structure ClauseRecord where
  id : JsValue
  text : JsValue
  type : JsValue
  risk : JsValue
  implications : JsValue

/-- One step of the `normalize` helper (lines 231–237).  Reading
`item.clause_text` throws when `item` is `null` or `undefined`. -/
def normalizeOne (idx : Nat) (item : JsValue) : Except Unit ClauseRecord :=
  if isNullish item then .error ()
  else .ok {
    id := vNum idx
    text := jsNN (getF item "clause_text".data) (jsNN (getF item "text".data) (vStr []))
    type := jsNN (getF item "clause_type_category".data)
      (jsNN (getF item "clause_type".data) (jsNN (getF item "type".data) (vStr "Unspecified".data)))
    risk := vStr (jsLower (jsToStringT
      (jsNN (getF item "risk_level".data) (jsNN (getF item "risk".data) (vStr "moderate".data)))))
    implications := jsNN (getF item "brief_explanation_of_implications".data)
      (jsNN (getF item "implications".data) vNull) }

/-- `arr.map((item, idx) => ...)`: items in order, the first throw escapes. -/
def normalizeBatch : Nat → List JsValue → Except Unit (List ClauseRecord)
  | _, [] => .ok []
  | idx, item :: rest =>
    match normalizeOne idx item with
    | .error e => .error e
    | .ok r =>
      match normalizeBatch (idx + 1) rest with
      | .error e => .error e
      | .ok rs => .ok (r :: rs)

/-- One step of the direct-array fallback's mapping (lines 324–333).  Note:
`id` is `it.id ?? null`, the source identifier, and the lookup orders differ
from `normalize` (`text` before `clause_text`, `type` before `clause_type`
before `category`, `risk` before `risk_level`).  `it.id` throws on a
`null`/`undefined` element — this mapping is not inside any `try`. -/
def fallbackOne (it : JsValue) : Except Unit ClauseRecord :=
  if isNullish it then .error ()
  else .ok {
    id := jsNN (getF it "id".data) vNull
    text := jsNN (getF it "text".data) (jsNN (getF it "clause_text".data) (vStr []))
    type := jsNN (getF it "type".data)
      (jsNN (getF it "clause_type".data) (jsNN (getF it "category".data) (vStr "Unspecified".data)))
    risk := vStr (jsLower (jsToStringT
      (jsNN (getF it "risk".data) (jsNN (getF it "risk_level".data) (vStr "moderate".data)))))
    implications := jsNN (getF it "implications".data) vNull }

def fallbackBatch : List JsValue → Except Unit (List ClauseRecord)
  | [] => .ok []
  | it :: rest =>
    match fallbackOne it with
    | .error e => .error e
    | .ok r =>
      match fallbackBatch rest with
      | .error e => .error e
      | .ok rs => .ok (r :: rs)

/-! ### Candidate extraction and the parsing tiers -/

/-- `rawData?.clauses?.[0]?.text` (also the component's `_innerBlockRaw`
before its `?? null`). -/
def clausesText (raw : JsValue) : JsValue :=
  optGet (optIdx0 (optGet raw "clauses".data)) "text".data

/-- `rawData?.clauses?.[0]?.body`. -/
def clausesBody (raw : JsValue) : JsValue :=
  optGet (optIdx0 (optGet raw "clauses".data)) "body".data

/-- `const block = rawData?.clauses?.[0]?.text ?? rawData?.clauses?.[0]?.body ?? null`. -/
def blockOf (raw : JsValue) : JsValue :=
  jsNN (clausesText raw) (jsNN (clausesBody raw) vNull)

/-- `typeof block === 'string' ? block : null`. -/
def candidateOf (raw : JsValue) : Option (List Char) :=
  match blockOf raw with
  | vStr s => some s
  | _ => none

/-- A tier's tail: `return normalize(parsed)` inside the tier's `try` — a
throw inside `normalize` is caught and control falls to the next tier. -/
def tierNorm (xs : List JsValue) : Option (List ClauseRecord) :=
  (normalizeBatch 0 xs).toOption

/-- Strict parse (lines 248–253): accept only a parsed array. -/
def tierStrict (cleaned : List Char) : Option (List ClauseRecord) :=
  match jsonParse cleaned with
  | some (vArr xs) => tierNorm xs
  | _ => none

/-- Fallback 1 (lines 255–262): unquote wrapper, reparse. -/
def tierUnquote (cleaned : List Char) : Option (List ClauseRecord) :=
  match jsonParse (unquoteWrapper cleaned) with
  | some (vArr xs) => tierNorm xs
  | _ => none

/-- Fallback 1b (lines 264–271): unescape typical escape sequences, reparse. -/
def tierUnescape (cleaned : List Char) : Option (List ClauseRecord) :=
  match jsonParse (unescapeSeqs cleaned) with
  | some (vArr xs) => tierNorm xs
  | _ => none

/-- Fallback 2 (lines 273–284): first `[` to last `]` substring, reparse. -/
def tierBracket (cleaned : List Char) : Option (List ClauseRecord) :=
  match bracketSub cleaned with
  | some sub =>
    match jsonParse sub with
    | some (vArr xs) => tierNorm xs
    | _ => none
  | none => none

/-- `extractObjectsFromText` (lines 369–386), which is also, verbatim, the
body of Fallback 3 (lines 287–297): every `{...}` span that parses,
in order, failures dropped. -/
def extractObjectsFromText (text : List Char) : List JsValue :=
  (objSpans text).filterMap jsonParse

/-- Fallback 3 (lines 286–301): per-object scan; accept when non-empty. -/
def tierObjects (cleaned : List Char) : Option (List ClauseRecord) :=
  let objs := extractObjectsFromText cleaned
  if 0 < objs.length then tierNorm objs else none

/-- The candidate-string tiers in source order, first success wins. -/
def tiers (cleaned : List Char) : Option (List ClauseRecord) :=
  match tierStrict cleaned with
  | some recs => some recs
  | none =>
  match tierUnquote cleaned with
  | some recs => some recs
  | none =>
  match tierUnescape cleaned with
  | some recs => some recs
  | none =>
  match tierBracket cleaned with
  | some recs => some recs
  | none => tierObjects cleaned

/-- Lines 304–320: serialize the whole payload, take the first-`[`-to-last-`]`
substring, reparse; everything (including the `normalize` call) sits inside
`try`/`catch`. -/
def wholePayloadScan (raw : JsValue) : Option (List ClauseRecord) :=
  match stringifyVal raw with
  | none => none
  | some asString =>
    match bracketSub asString with
    | some sub =>
      match jsonParse sub with
      | some (vArr xs) => tierNorm xs
      | _ => none
    | none => none

/-- `parseNestedClauses` (lines 227–338).  The only unguarded region is the
final direct-array fallback whose element mapping can throw. -/
def parseNestedClauses (rawData : JsValue) : Except Unit (List ClauseRecord) :=
  if truthy rawData = false then .ok []
  else
    let viaCandidate : Option (List ClauseRecord) :=
      match candidateOf rawData with
      | some s => if s = [] then none else tiers (cleanFence s)
      | none => none
    match viaCandidate with
    | some recs => .ok recs
    | none =>
      match wholePayloadScan rawData with
      | some recs => .ok recs
      | none =>
        match optGet rawData "clauses".data with
        | vArr items => fallbackBatch items
        | _ => .ok []

/-! ### The component-level method computation (lines 388–404) -/

/-- Line 389–390: `_innerBlockRaw = extractedClausesRaw?.clauses?.[0]?.text ?? null`,
then `cleanedInnerBlock = _innerBlockRaw ? _innerBlockRaw.replace(...).trim() : null`.
Calling `.replace` on a truthy non-string throws. -/
def cleanedInnerBlockE (raw : JsValue) : Except Unit (Option (List Char)) :=
  let innerBlockRaw := jsNN (clausesText raw) vNull
  if truthy innerBlockRaw then
    match innerBlockRaw with
    | vStr s => .ok (some (cleanFence s))
    | _ => .error ()
  else .ok none

/-- Line 403:
`parsedClauses.length > 0 ? 'array' : (objectClauses.length > 0 ? 'objects' : (cleanedInnerBlock ? 'raw-text' : 'none'))`. -/
def parseMethodOf (parsedClauses objectClauses : List ClauseRecord)
    (cleanedInnerBlock : Option (List Char)) : List Char :=
  if 0 < parsedClauses.length then "array".data
  else if 0 < objectClauses.length then "objects".data
  else if cleanedInnerBlock.getD [] ≠ [] then "raw-text".data
  else "none".data

/-- Line 391: `objectMatches = cleanedInnerBlock ?
extractObjectsFromText(cleanedInnerBlock) : []` — the guard is the CLEANED
string's truthiness (empty string is falsy). -/
def objectMatchesOf : Option (List Char) → List JsValue
  | some t => if t ≠ [] then extractObjectsFromText t else []
  | none => []

/-- Lines 366–403 in evaluation order: `parsedClauses`, `cleanedInnerBlock`,
`objectMatches`, `objectClauses` (the repeated normalize mapping),
`effectiveClauses`, `parseMethod`. -/
def extractionResult (raw : JsValue) : Except Unit (List ClauseRecord × List Char) :=
  match parseNestedClauses raw with
  | .error e => .error e
  | .ok parsedClauses =>
    match cleanedInnerBlockE raw with
    | .error e => .error e
    | .ok cib =>
      match normalizeBatch 0 (objectMatchesOf cib) with
      | .error e => .error e
      | .ok objectClauses =>
        .ok (if 0 < parsedClauses.length then parsedClauses else objectClauses,
             parseMethodOf parsedClauses objectClauses cib)

/-! ### `generateSummary` (lines 342–363) -/

/-- `/\s+/g → ' '`: collapse every whitespace run to a single space. -/
def collapseWs : List Char → List Char
  | [] => []
  | c :: rest =>
    if isWsJs c then ' ' :: collapseWs (rest.dropWhile (fun ch => isWsJs ch))
    else c :: collapseWs rest
termination_by l => l.length
decreasing_by
  · exact Nat.lt_succ_of_le (List.dropWhile_sublist _).length_le
  · simp

/-- `Array.from(new Set(xs))`: drop duplicates, keep first occurrences. -/
def dedupeFrom (seen : List (List Char)) : List (List Char) → List (List Char)
  | [] => []
  | x :: xs => if x ∈ seen then dedupeFrom seen xs else x :: dedupeFrom (x :: seen) xs

def dedupeFirst (l : List (List Char)) : List (List Char) := dedupeFrom [] l

/-- `(c.type || '').trim()`: `.trim()` throws when `c.type` is truthy but not
a string. -/
def categoryOf (c : ClauseRecord) : Except Unit (List Char) :=
  match (if truthy c.type then c.type else vStr []) with
  | vStr s => .ok (trimJs s)
  | _ => .error ()

def categoriesOf : List ClauseRecord → Except Unit (List (List Char))
  | [] => .ok []
  | c :: cs =>
    match categoryOf c with
    | .error e => .error e
    | .ok s =>
      match categoriesOf cs with
      | .error e => .error e
      | .ok ss => .ok (s :: ss)

/-- `(c.risk || '').toString().toLowerCase()` — total, since `.toString()`
works on every non-nullish value and `||` never passes a nullish one here. -/
def riskStrOf (c : ClauseRecord) : List Char :=
  jsLower (jsToStringT (if truthy c.risk then c.risk else vStr []))

def noSummarySentinel : List Char := "No summary available.".data

/-- The synthetic branch (lines 349–362). -/
def generateSummaryAuto (parsedClauses : List ClauseRecord) : Except Unit (List Char) :=
  if parsedClauses.length = 0 then .ok noSummarySentinel
  else
    let takeC := parsedClauses.take 5
    match categoriesOf takeC with
    | .error e => .error e
    | .ok cats0 =>
      let categories := dedupeFirst (cats0.filter (fun s => s ≠ []))
      let implications := ((takeC.map (fun c => c.implications)).filter (fun v => truthy v)).take 5
      let risks := dedupeFirst ((takeC.map riskStrOf).filter (fun s => s ≠ []))
      let catPart :=
        if 0 < categories.length then List.intercalate ", ".data (categories.take 4)
        else "general contractual terms".data
      let riskPart :=
        if 0 < risks.length then
          "Risks identified: ".data ++ List.intercalate ", ".data risks ++ ".".data
        else []
      let implicPart :=
        if 0 < implications.length then
          "Notable implications include ".data ++
            List.intercalate "; ".data (implications.map jsToStringT) ++ ".".data
        else []
      .ok (trimJs (collapseWs
        ("This document contains clauses related to ".data ++ catPart ++ ". ".data ++
          implicPart ++ " ".data ++ riskPart)))

/-- `generateSummary` (lines 342–363): a backend summary is used only when it
is a string that is truthy and non-empty after trimming. -/
def generateSummary (rawData : JsValue) (parsedClauses : List ClauseRecord) :
    Except Unit (List Char) :=
  let backendSummary := optGet rawData "summary".data
  match backendSummary with
  | vStr s => if s ≠ [] ∧ trimJs s ≠ [] then .ok s else generateSummaryAuto parsedClauses
  | _ => generateSummaryAuto parsedClauses

/-! ## Lemmas about the fence cleaner -/

theorem dropWhile_head?_not {p : Char → Bool} {a : Char} :
    ∀ l : List Char, (l.dropWhile p).head? = some a → ¬ p a := by
  intro l
  induction l with
  | nil => simp
  | cons c rest ih =>
    rw [List.dropWhile_cons]
    by_cases hc : p c
    · rw [if_pos hc]; exact ih
    · rw [if_neg hc]
      intro ha
      simp only [List.head?_cons, Option.some.injEq] at ha
      exact ha ▸ hc

theorem trimJs_idem (l : List Char) : trimJs (trimJs l) = trimJs l := by
  unfold trimJs
  obtain ⟨k, hk⟩ := List.rdropWhile_prefix (fun c => isWsJs c)
    (List.dropWhile (fun c => isWsJs c) l)
  have hd : List.dropWhile (fun c => isWsJs c)
      (List.rdropWhile (fun c => isWsJs c) (List.dropWhile (fun c => isWsJs c) l)) =
      List.rdropWhile (fun c => isWsJs c) (List.dropWhile (fun c => isWsJs c) l) := by
    cases ht : List.rdropWhile (fun c => isWsJs c) (List.dropWhile (fun c => isWsJs c) l) with
    | nil => rfl
    | cons a t' =>
      have hh : (List.dropWhile (fun c => isWsJs c) l).head? = some a := by
        rw [← hk, ht]; rfl
      have hna : ¬ isWsJs a := dropWhile_head?_not _ hh
      rw [List.dropWhile_cons, if_neg hna]
  rw [hd, List.rdropWhile_idempotent]

theorem fenceRemove_of_no_fence {l : List Char} (h : ¬ fence3 <:+: l) :
    fenceRemove l = l := by
  induction l with
  | nil => rfl
  | cons c rest ih =>
    rw [fenceRemove]
    have h3 : ¬ (c :: rest).take 3 = fence3 := fun he =>
      h (he ▸ (List.take_prefix 3 (c :: rest)).isInfix)
    rw [if_neg h3, ih (fun hi => h (List.infix_cons hi))]

theorem trailFenceRemove_of_no_fence {l : List Char} (h : ¬ fence3 <:+: l) :
    trailFenceRemove l = l := by
  unfold trailFenceRemove
  rw [if_neg]
  intro he
  have h1 : fence3 <:+: l.reverse := he ▸ (List.take_prefix 3 l.reverse).isInfix
  have h2 : fence3.reverse <:+: l.reverse.reverse := h1.reverse
  rw [List.reverse_reverse] at h2
  exact h (by simpa using h2)

/-! ## Lemmas about the escape replacements -/

theorem mem_stripPair {b c : Char} : ∀ l, c ∈ stripPair b l → c ∈ l := by
  intro l h
  induction l using stripPair.induct b with
  | case1 => simp [stripPair] at h
  | case2 d => simpa [stripPair] using h
  | case3 c1 c2 rest hif ih =>
    rw [stripPair, if_pos hif] at h
    exact List.mem_cons_of_mem _ (List.mem_cons_of_mem _ (ih h))
  | case4 c1 c2 rest hif ih =>
    rw [stripPair, if_neg hif] at h
    rcases List.mem_cons.1 h with h1 | h2
    · exact h1 ▸ List.mem_cons_self _ _
    · exact List.mem_cons_of_mem _ (ih h2)

theorem mem_unescQuote {c : Char} : ∀ l, c ∈ unescQuote l → c ∈ l ∨ c = '"' := by
  intro l h
  induction l using unescQuote.induct with
  | case1 => simp [unescQuote] at h
  | case2 d => simp [unescQuote] at h; exact Or.inl (by simp [h])
  | case3 c1 c2 rest hif ih =>
    rw [unescQuote, if_pos hif] at h
    rcases List.mem_cons.1 h with h1 | h2
    · exact Or.inr h1
    · rcases ih h2 with h3 | h3
      · exact Or.inl (List.mem_cons_of_mem _ (List.mem_cons_of_mem _ h3))
      · exact Or.inr h3
  | case4 c1 c2 rest hif ih =>
    rw [unescQuote, if_neg hif] at h
    rcases List.mem_cons.1 h with h1 | h2
    · exact Or.inl (h1 ▸ List.mem_cons_self _ _)
    · rcases ih h2 with h3 | h3
      · exact Or.inl (List.mem_cons_of_mem _ h3)
      · exact Or.inr h3

/-! ## Lemmas about the normalizers -/

theorem normalizeOne_id {k : Nat} {x : JsValue} {r : ClauseRecord}
    (h : normalizeOne k x = .ok r) : r.id = vNum k := by
  unfold normalizeOne at h
  by_cases hn : isNullish x
  · rw [if_pos hn] at h; cases h
  · rw [if_neg hn] at h
    cases h
    rfl

theorem normalizeBatch_id_aux :
    ∀ (xs : List JsValue) (k : Nat) (recs : List ClauseRecord),
      normalizeBatch k xs = .ok recs →
      ∀ (i : Nat) (h : i < recs.length), (recs.get ⟨i, h⟩).id = vNum (k + i : Nat) := by
  intro xs
  induction xs with
  | nil =>
    intro k recs hn i hi
    rw [normalizeBatch] at hn
    cases hn
    simp at hi
  | cons x rest ih =>
    intro k recs hn i hi
    rw [normalizeBatch] at hn
    cases ho : normalizeOne k x with
    | error e => rw [ho] at hn; cases hn
    | ok r =>
      rw [ho] at hn
      cases hr : normalizeBatch (k + 1) rest with
      | error e => rw [hr] at hn; cases hn
      | ok rs =>
        rw [hr] at hn
        cases hn
        cases i with
        | zero =>
          simpa using normalizeOne_id ho
        | succ j =>
          have hj : j < rs.length := by simpa using hi
          have := ih (k + 1) rs hr j hj
          have harith : k + 1 + j = k + (j + 1) := by omega
          simpa [harith] using this

theorem normalizeBatch_error_of_mem_null :
    ∀ (xs : List JsValue) (k : Nat), vNull ∈ xs → normalizeBatch k xs = .error () := by
  intro xs
  induction xs with
  | nil => intro k h; simp at h
  | cons x rest ih =>
    intro k h
    rcases List.mem_cons.1 h with h1 | h2
    · rw [normalizeBatch, ← h1]
      rfl
    · rw [normalizeBatch]
      cases ho : normalizeOne k x with
      | error e => cases e; rfl
      | ok r => rw [ih (k + 1) h2]


theorem normalizeBatch_ok_of_no_nullish :
    ∀ (xs : List JsValue) (k : Nat), (∀ x ∈ xs, isNullish x = false) →
      ∃ recs, normalizeBatch k xs = .ok recs ∧ recs.length = xs.length := by
  intro xs
  induction xs with
  | nil => intro k _; exact ⟨[], rfl, rfl⟩
  | cons x rest ih =>
    intro k h
    obtain ⟨rs, hrs, hlen⟩ := ih (k + 1) (fun y hy => h y (List.mem_cons_of_mem _ hy))
    have hx : isNullish x = false := h x (List.mem_cons_self _ _)
    cases ho : normalizeOne k x with
    | error e =>
      exfalso
      unfold normalizeOne at ho
      rw [if_neg (by simp [hx])] at ho
      cases ho
    | ok r =>
      refine ⟨r :: rs, ?_, by simp [hlen]⟩
      rw [normalizeBatch, ho, hrs]

/-- A payload whose `clauses[0].text` chain yields a string must be an
object, hence truthy. -/
theorem truthy_of_clausesText {raw : JsValue} {s : List Char}
    (ht : clausesText raw = vStr s) : truthy raw = true := by
  cases raw with
  | vObj fields => rfl
  | vNull => exact JsValue.noConfusion ht
  | vUndef => exact JsValue.noConfusion ht
  | vBool b => exact JsValue.noConfusion ht
  | vNum n => exact JsValue.noConfusion ht
  | vStr s2 => exact JsValue.noConfusion ht
  | vArr l => exact JsValue.noConfusion ht

/-! ## Claim C1 -/

/-- C1: evaluation of the pipeline at the failing input `{clauses: [null]}`.
The candidate locator finds no string, the whole-payload scan's `normalize`
throws on the `null` element (that throw is caught), and then the
direct-array fallback's unguarded `it.id` access throws, escaping
`parseNestedClauses` — so the extraction pipeline does NOT return a
well-formed result for every payload: a `TypeError` escapes the pipeline
boundary on exactly the inputs the claim singles out. -/
theorem c1_null_clause_throws :
    parseNestedClauses (vObj [("clauses".data, vArr [vNull])]) = .error () ∧
    extractionResult (vObj [("clauses".data, vArr [vNull])]) = .error () :=
  ⟨rfl, rfl⟩

/-! ## Claim C2 -/

/-- C2 counterexample: on `{a: "[", clauses: [{id: 99}]}` the candidate
locator finds nothing, the whole-payload scan's bracket substring (cut from
the serialized payload starting inside the string `"["`) fails to parse, and
the direct-array fallback keeps the source-provided identifier — the output
record's `id` is `99`, not its 0-based batch index `0`, refuting the claim
for fallback-produced batches. -/
theorem c2_counterexample :
    parseNestedClauses (vObj [("a".data, vStr "[".data),
        ("clauses".data, vArr [vObj [("id".data, vNum 99)]])]) =
      .ok [⟨vNum 99, vStr [], vStr "Unspecified".data, vStr "moderate".data, vNull⟩] ∧
    JsValue.vNum 99 ≠ JsValue.vNum 0 :=
  ⟨rfl, fun h => absurd (JsValue.vNum.inj h) (by decide)⟩

/-- C2 amended: the index-overriding `id` assignment holds for every batch
that goes through the pipeline's `normalize` helper — which is every batch
produced by tiers 1–5 and the whole-payload scan — but not for the
direct-array fallback, which keeps `it.id ?? null`. -/
theorem c2_amended_ids (xs : List JsValue) (recs : List ClauseRecord)
    (hn : normalizeBatch 0 xs = .ok recs) :
    ∀ (i : Nat) (h : i < recs.length), (recs.get ⟨i, h⟩).id = vNum i := by
  intro i h
  simpa using normalizeBatch_id_aux xs 0 recs hn i h

/-- C2 witness: a source object carrying `id: 77` still normalizes to a
record with `id = 0` at batch position 0. -/
theorem c2_amended_ids_witness :
    (([⟨vNum 0, vStr [], vStr "Unspecified".data, vStr "moderate".data, vNull⟩] :
        List ClauseRecord).get ⟨0, by simp⟩).id = vNum 0 :=
  c2_amended_ids [vObj [("id".data, vNum 77)]] _ rfl 0 (by simp)

/-! ## Claim C4 -/

/-- C4 counterexample: Fallback 1b maps the two-character sequence `\n` to
the empty string — not to a literal newline — and likewise `\r`,
contradicting the claim that these escape sequences are replaced by their
corresponding literal characters. -/
theorem c4_counterexample :
    unescapeSeqs ['\\', 'n'] = [] ∧ unescapeSeqs ['\\', 'r'] = [] ∧
    ([] : List Char) ≠ ['\n'] ∧ ([] : List Char) ≠ ['\r'] :=
  ⟨rfl, rfl, by decide, by decide⟩

/-- C4 amended: tier 3 DELETES the escape sequences `\n` and `\r` (replacing
them with the empty string — it can never introduce a newline or carriage
return that was not already present) and replaces `\"` with a literal double
quote. -/
theorem c4_amended :
    (∀ l : List Char, '\n' ∉ l → '\n' ∉ unescapeSeqs l) ∧
    (∀ l : List Char, '\r' ∉ l → '\r' ∉ unescapeSeqs l) ∧
    unescapeSeqs ['\\', '"'] = ['"'] := by
  refine ⟨?_, ?_, rfl⟩
  · intro l hl hmem
    rcases mem_unescQuote _ hmem with h | h
    · exact hl (mem_stripPair _ (mem_stripPair _ h))
    · exact absurd h (by decide)
  · intro l hl hmem
    rcases mem_unescQuote _ hmem with h | h
    · exact hl (mem_stripPair _ (mem_stripPair _ h))
    · exact absurd h (by decide)

/-- C4 witness: instantiation of the amended theorem at a concrete string. -/
theorem c4_amended_witness :
    '\n' ∉ unescapeSeqs "abc".data ∧ '\r' ∉ unescapeSeqs "abc".data :=
  ⟨c4_amended.1 "abc".data (by decide), c4_amended.2.1 "abc".data (by decide)⟩

/-! ## Claim C5 -/

/-- C5 counterexample: the strictly parsed batch `[5, {"clause_text":"x"}]`
mixes one non-object member with one valid clause object; the claim says the
malformed member is dropped silently so that only the valid object yields a
record, but the pipeline emits TWO records — the first fabricated from the
number `5` with every field defaulted. -/
theorem c5_counterexample :
    parseNestedClauses (vObj [("clauses".data,
        vArr [vObj [("text".data, vStr "[5, \x7b\"clause_text\":\"x\"\x7d]".data)]])]) =
      .ok [⟨vNum 0, vStr [], vStr "Unspecified".data, vStr "moderate".data, vNull⟩,
           ⟨vNum 1, vStr "x".data, vStr "Unspecified".data, vStr "moderate".data, vNull⟩] ∧
    ([⟨vNum 0, vStr [], vStr "Unspecified".data, vStr "moderate".data, vNull⟩,
      ⟨vNum 1, vStr "x".data, vStr "Unspecified".data, vStr "moderate".data, vNull⟩] :
        List ClauseRecord).length ≠ 1 :=
  ⟨rfl, by simp⟩

/-- C5 amended: within a batch handed to the `normalize` helper nothing is
ever dropped: a `null` member throws and aborts the whole tier (the throw is
caught, demoting control to later tiers), while every batch free of
`null`/`undefined` members yields exactly one record per member — including
default-filled records for non-object members.  Only the tier-5 per-object
scan silently drops (unparseable) spans. -/
theorem c5_amended :
    (∀ xs : List JsValue, vNull ∈ xs → normalizeBatch 0 xs = .error ()) ∧
    (∀ xs : List JsValue, (∀ x ∈ xs, isNullish x = false) →
      ∃ recs, normalizeBatch 0 xs = .ok recs ∧ recs.length = xs.length) :=
  ⟨fun xs h => normalizeBatch_error_of_mem_null xs 0 h,
   fun xs h => normalizeBatch_ok_of_no_nullish xs 0 h⟩

/-- C5 witness: both halves of the amended theorem at concrete inputs. -/
theorem c5_amended_witness :
    normalizeBatch 0 [vNull] = .error () ∧
    (∃ recs, normalizeBatch 0 [vNum 5] = .ok recs ∧ recs.length = [vNum 5].length) :=
  ⟨c5_amended.1 [vNull] (by simp),
   c5_amended.2 [vNum 5] (by intro x hx; simp only [List.mem_singleton] at hx; rw [hx]; rfl)⟩

/-! ## Claim C6 -/

/-- C6: the pipeline is a pure function of its input — two deeply equal
payloads produce identical records, in the same order, with the same method
tag (and the summary synthesizer is likewise input-determined).  The source
component reads nothing but `extractedClausesRaw` on these paths, which the
embedding makes explicit: `extractionResult` takes the payload and nothing
else. -/
theorem c6_deterministic (raw1 raw2 : JsValue) (h : raw1 = raw2) :
    extractionResult raw1 = extractionResult raw2 ∧
    ∀ recs : List ClauseRecord, generateSummary raw1 recs = generateSummary raw2 recs := by
  subst h
  exact ⟨rfl, fun _ => rfl⟩

/-- C6 witness: the determinism theorem applied at a concrete payload. -/
theorem c6_deterministic_witness :
    extractionResult (vObj [("clauses".data, vArr [vObj [("text".data, vStr "[]".data)]])]) =
      extractionResult (vObj [("clauses".data, vArr [vObj [("text".data, vStr "[]".data)]])]) :=
  (c6_deterministic _ _ rfl).1

/-! ## Claim C9 -/

/-- C9 counterexample: `" "` (one space) is a non-empty string in the
payload's `summary` field, yet the synthesizer does not return it verbatim —
`" ".trim().length > 0` fails, so with no records the sentinel comes back
instead. -/
theorem c9_counterexample :
    generateSummary (vObj [("summary".data, vStr " ".data)]) [] = .ok noSummarySentinel ∧
    " ".data ≠ ([] : List Char) ∧
    noSummarySentinel ≠ " ".data :=
  ⟨rfl, by decide, by decide⟩

/-- C9 amended: the synthesizer returns the payload's `summary` field
verbatim whenever it is a string that is non-empty AFTER TRIMMING whitespace
(not merely non-empty), regardless of the records; and with no records and
no summary field it returns the fixed sentinel. -/
theorem c9_amended :
    (∀ (raw : JsValue) (recs : List ClauseRecord) (s : List Char),
      optGet raw "summary".data = vStr s → trimJs s ≠ [] →
      generateSummary raw recs = .ok s) ∧
    (∀ raw : JsValue, optGet raw "summary".data = vUndef →
      generateSummary raw [] = .ok noSummarySentinel) := by
  constructor
  · intro raw recs s hs htrim
    unfold generateSummary
    rw [hs]
    have hne : s ≠ [] := fun h => htrim (by rw [h]; rfl)
    show (if s ≠ [] ∧ trimJs s ≠ [] then Except.ok s else generateSummaryAuto recs) = Except.ok s
    rw [if_pos ⟨hne, htrim⟩]
  · intro raw hs
    unfold generateSummary
    rw [hs]
    rfl

/-- C9 witness: both halves of the amended theorem at concrete inputs. -/
theorem c9_amended_witness :
    generateSummary (vObj [("summary".data, vStr "All good.".data)]) [] = .ok "All good.".data ∧
    generateSummary (vObj []) [] = .ok noSummarySentinel :=
  ⟨c9_amended.1 _ [] _ rfl (by decide), c9_amended.2 _ rfl⟩

/-! ## Inversion lemmas for the JSON reader -/

theorem parseArrRest_length :
    ∀ (f : Nat) (acc : List JsValue) (l : List Char) (v : List JsValue) (r : List Char),
      parseArrRest f acc l = some (vArr v, r) → acc.length ≤ v.length := by
  intro f
  induction f with
  | zero => intro acc l v r h; rw [parseArrRest] at h; cases h
  | succ f ih =>
    intro acc l v r h
    rw [parseArrRest] at h
    split at h
    · cases h
      simp
    · split at h
      · rename_i v1 r2 hv1
        have := ih (v1 :: acc) r2 v r h
        simp at this
        omega
      · cases h
    · cases h

theorem parseObjRest_shape :
    ∀ (f : Nat) (acc : List (List Char × JsValue)) (l : List Char) (v : JsValue) (r : List Char),
      parseObjRest f acc l = some (v, r) → ∃ fs, v = vObj fs := by
  intro f
  induction f with
  | zero => intro acc l v r h; rw [parseObjRest] at h; cases h
  | succ f ih =>
    intro acc l v r h
    rw [parseObjRest] at h
    split at h
    · cases h
      exact ⟨_, rfl⟩
    · split at h
      · rename_i kv r2 hkv
        exact ih _ _ v r h
      · cases h
    · cases h

/-- Inversion of the reader at the empty array: the only way `parseVal` can
return `vArr []` is the immediate `'['`–whitespace–`']'` shape. -/
theorem parseVal_arr_nil {f : Nat} {l r : List Char}
    (h : parseVal (f + 1) l = some (vArr [], r)) :
    ∃ rest, skipWsJson l = '[' :: rest ∧ skipWsJson rest = ']' :: r := by
  rw [parseVal] at h
  split at h
  · cases h
  · rename_i c rest hsk
    by_cases hc : c = '['
    · subst hc
      rw [if_pos rfl] at h
      refine ⟨rest, hsk, ?_⟩
      split at h
      · cases h
        rename_i heq
        exact heq
      · split at h
        · rename_i v1 r3 hv1
          have := parseArrRest_length f [v1] r3 [] r h
          simp at this
        · cases h
    · rw [if_neg hc] at h
      by_cases hc2 : c = '{'
      · subst hc2
        rw [if_pos rfl] at h
        exfalso
        split at h
        · cases h
        · split at h
          · rename_i kv r3 hkv
            obtain ⟨fs, hfs⟩ := parseObjRest_shape f [kv] r3 (vArr []) r h
            cases hfs
          · cases h
      · rw [if_neg hc2] at h
        exfalso
        by_cases hc3 : c = '"'
        · subst hc3
          rw [if_pos rfl] at h
          split at h
          · cases h
          · cases h
        · rw [if_neg hc3] at h
          by_cases hc4 : c = 't'
          · subst hc4
            rw [if_pos rfl] at h
            split at h <;> cases h
          · rw [if_neg hc4] at h
            by_cases hc5 : c = 'f'
            · subst hc5
              rw [if_pos rfl] at h
              split at h <;> cases h
            · rw [if_neg hc5] at h
              by_cases hc6 : c = 'n'
              · subst hc6
                rw [if_pos rfl] at h
                split at h <;> cases h
              · rw [if_neg hc6] at h
                by_cases hc7 : c = '-'
                · subst hc7
                  rw [if_pos rfl] at h
                  split at h <;> cases h
                · rw [if_neg hc7] at h
                  by_cases hc8 : c.isDigit
                  · rw [if_pos hc8] at h
                    split at h <;> cases h
                  · rw [if_neg hc8] at h
                    cases h

/-- Any string that strictly parses to the empty JSON array consists of
nothing but the two brackets and JSON whitespace, and is non-empty. -/
theorem jsonParse_arr_nil {l : List Char} (h : jsonParse l = some (vArr [])) :
    (∀ c ∈ l, c = '[' ∨ c = ']' ∨ isWsJson c = true) ∧ l ≠ [] := by
  unfold jsonParse at h
  cases hv : parseVal (l.length + 1) l with
  | none => rw [hv] at h; cases h
  | some p =>
    rw [hv] at h
    cases p with
    | mk v r =>
      change (if skipWsJson r = [] then some v else none) = some (vArr []) at h
      by_cases hr : skipWsJson r = []
      · rw [if_pos hr] at h
        have hva : v = vArr [] := by cases h; rfl
        subst hva
        obtain ⟨rest, hsk, hsk2⟩ := parseVal_arr_nil hv
        have hre : ∀ c ∈ r, isWsJson c = true := by
          intro c hc
          exact List.dropWhile_eq_nil_iff.mp hr c hc
        constructor
        · intro c hc
          have hl : l = l.takeWhile (fun x => isWsJson x) ++ ('[' :: rest) := by
            rw [← hsk]
            exact (List.takeWhile_append_dropWhile _ _).symm
          rw [hl] at hc
          rcases List.mem_append.1 hc with h1 | h1
          · exact Or.inr (Or.inr (List.mem_takeWhile_imp h1))
          · rcases List.mem_cons.1 h1 with h2 | h2
            · exact Or.inl h2
            · have hrest : rest = rest.takeWhile (fun x => isWsJson x) ++ (']' :: r) := by
                rw [← hsk2]
                exact (List.takeWhile_append_dropWhile _ _).symm
              rw [hrest] at h2
              rcases List.mem_append.1 h2 with h3 | h3
              · exact Or.inr (Or.inr (List.mem_takeWhile_imp h3))
              · rcases List.mem_cons.1 h3 with h4 | h4
                · exact Or.inr (Or.inl h4)
                · exact Or.inr (Or.inr (hre c h4))
        · intro hnil
          rw [hnil] at hsk
          cases hsk
      · rw [if_neg hr] at h
        cases h

/-- A string without an opening brace has no object spans. -/
theorem objSpans_nil_of_no_brace :
    ∀ l : List Char, (∀ c ∈ l, c ≠ '{') → objSpans l = [] := by
  intro l
  unfold objSpans
  induction l with
  | nil => intro _; rfl
  | cons c rest ih =>
    intro h
    have hc : c ≠ '{' := h c (List.mem_cons_self _ _)
    rw [objScanAux, if_neg hc]
    exact ih (fun x hx => h x (List.mem_cons_of_mem _ hx))

/-! ## Shared facts about the `raw-text` outcome -/

/-- When the `text` field supplied a truthy candidate, the pipeline returned
no records, and the object re-scan of the cleaned text finds nothing but the
cleaned text is still truthy, the component reports `raw-text`. -/
theorem extraction_rawText_aux (raw : JsValue) (s : List Char)
    (ht : clausesText raw = vStr s) (hs : s ≠ [])
    (hp : parseNestedClauses raw = .ok [])
    (ho : extractObjectsFromText (cleanFence s) = [])
    (hc : cleanFence s ≠ []) :
    extractionResult raw = .ok ([], "raw-text".data) := by
  have hcib : cleanedInnerBlockE raw = .ok (some (cleanFence s)) := by
    unfold cleanedInnerBlockE
    rw [ht]
    have h1 : jsNN (vStr s) vNull = vStr s := rfl
    rw [h1]
    have htr : truthy (vStr s) = true := by simp [truthy, hs]
    rw [if_pos htr]
  have hom : objectMatchesOf (some (cleanFence s)) = [] := by
    rw [show objectMatchesOf (some (cleanFence s)) =
      (if cleanFence s ≠ [] then extractObjectsFromText (cleanFence s) else []) from rfl,
      if_pos hc, ho]
  have hpm : parseMethodOf [] [] (some (cleanFence s)) = "raw-text".data := by
    unfold parseMethodOf
    simp [hc]
  unfold extractionResult
  rw [hp, hcib]
  show (match normalizeBatch 0 (objectMatchesOf (some (cleanFence s))) with
      | Except.error e => Except.error e
      | Except.ok objectClauses =>
        Except.ok (if 0 < ([] : List ClauseRecord).length then ([] : List ClauseRecord)
            else objectClauses,
          parseMethodOf [] objectClauses (some (cleanFence s)))) =
    Except.ok ([], "raw-text".data)
  rw [hom]
  show Except.ok ([], parseMethodOf [] [] (some (cleanFence s))) =
    Except.ok (([] : List ClauseRecord), "raw-text".data)
  rw [hpm]

/-- Strict-parse success on an empty array makes the pipeline return
no records at tier 1. -/
theorem parseNested_nil_of_empty_array (raw : JsValue) (s : List Char)
    (ht : clausesText raw = vStr s) (hs : s ≠ [])
    (hparse : jsonParse (cleanFence s) = some (vArr [])) :
    parseNestedClauses raw = .ok [] := by
  have htr : truthy raw = true := truthy_of_clausesText ht
  have hcand : candidateOf raw = some s := by
    unfold candidateOf blockOf
    rw [ht]
    rfl
  have htiers : tiers (cleanFence s) = some [] := by
    unfold tiers tierStrict
    rw [hparse]
    rfl
  unfold parseNestedClauses
  rw [htr, if_neg (by decide : ¬ (true = false))]
  simp [hcand, hs, htiers]

/-! ## Claim C3 -/

/-- C3 counterexample: on `{clauses: [{text: "{\"clause_text\":\"x\"}"}]}`
the cleaned candidate holds one well-formed `{...}` object and no parseable
array, so tiers 1–4 all fail and the tier-5 per-object scan inside
`parseNestedClauses` produces the records — yet the reported method is
`"array"`, not `"objects"`, because `parseMethod` answers `"array"` whenever
`parsedClauses` is non-empty regardless of which tier fired. -/
theorem c3_counterexample :
    tierStrict (cleanFence "\x7b\"clause_text\":\"x\"\x7d".data) = none ∧
    tierUnquote (cleanFence "\x7b\"clause_text\":\"x\"\x7d".data) = none ∧
    tierUnescape (cleanFence "\x7b\"clause_text\":\"x\"\x7d".data) = none ∧
    tierBracket (cleanFence "\x7b\"clause_text\":\"x\"\x7d".data) = none ∧
    tierObjects (cleanFence "\x7b\"clause_text\":\"x\"\x7d".data) =
      some [⟨vNum 0, vStr "x".data, vStr "Unspecified".data, vStr "moderate".data, vNull⟩] ∧
    extractionResult (vObj [("clauses".data,
        vArr [vObj [("text".data, vStr "\x7b\"clause_text\":\"x\"\x7d".data)]])]) =
      .ok ([⟨vNum 0, vStr "x".data, vStr "Unspecified".data, vStr "moderate".data, vNull⟩],
           "array".data) ∧
    "array".data ≠ "objects".data :=
  ⟨rfl, rfl, rfl, rfl, rfl, rfl, by decide⟩

/-- C3 amended: whenever the pipeline (`parseNestedClauses`, any tier
including the per-object scan) produced a non-empty record list, the
reported method is `"array"`; `"objects"` is reported only when the pipeline
returned zero records (and the component's separate object re-scan of the
`text` field found something). -/
theorem c3_amended (raw : JsValue) (p recs : List ClauseRecord) (m : List Char)
    (hp : parseNestedClauses raw = .ok p)
    (hx : extractionResult raw = .ok (recs, m)) :
    (p ≠ [] → m = "array".data) ∧ (m = "objects".data → p = []) := by
  unfold extractionResult at hx
  rw [hp] at hx
  cases hcib : cleanedInnerBlockE raw with
  | error e => rw [hcib] at hx; cases hx
  | ok cib =>
    rw [hcib] at hx
    replace hx : (match normalizeBatch 0 (objectMatchesOf cib) with
        | Except.error e => Except.error e
        | Except.ok objectClauses =>
          Except.ok (if 0 < p.length then p else objectClauses,
            parseMethodOf p objectClauses cib)) = Except.ok (recs, m) := hx
    cases hn : normalizeBatch 0 (objectMatchesOf cib) with
    | error e =>
      rw [hn] at hx
      exact Except.noConfusion hx
    | ok objC =>
      rw [hn] at hx
      simp only [Except.ok.injEq, Prod.mk.injEq] at hx
      obtain ⟨-, hm⟩ := hx
      constructor
      · intro hpne
        rw [← hm]
        unfold parseMethodOf
        rw [if_pos (List.length_pos.mpr hpne)]
      · intro hobj
        by_contra hpne
        rw [← hm] at hobj
        unfold parseMethodOf at hobj
        rw [if_pos (List.length_pos.mpr hpne)] at hobj
        exact absurd hobj (by decide)

/-- C3 witness: the amended theorem instantiated at the per-object-scan
input, whose records are non-empty and whose method is `"array"`. -/
theorem c3_amended_witness :
    (([⟨vNum 0, vStr "x".data, vStr "Unspecified".data, vStr "moderate".data, vNull⟩] :
        List ClauseRecord) ≠ [] → "array".data = "array".data) ∧
    ("array".data = "objects".data →
      ([⟨vNum 0, vStr "x".data, vStr "Unspecified".data, vStr "moderate".data, vNull⟩] :
        List ClauseRecord) = []) :=
  c3_amended (vObj [("clauses".data,
      vArr [vObj [("text".data, vStr "\x7b\"clause_text\":\"x\"\x7d".data)]])]) _ _ _ rfl rfl

/-! ## Claim C7 -/

/-- C7 counterexample: on `{clauses: [{body: "[]"}]}` the Candidate Block
Locator produces the non-null candidate `"[]"` (from the `body` field), the
strict tier parses it to an empty array, so no records exist — but the
reported method is `"none"`, not `"raw-text"`, because the component's
`_innerBlockRaw` only consults the `text` field. -/
theorem c7_counterexample :
    candidateOf (vObj [("clauses".data, vArr [vObj [("body".data, vStr "[]".data)]])]) =
      some "[]".data ∧
    extractionResult (vObj [("clauses".data, vArr [vObj [("body".data, vStr "[]".data)]])]) =
      .ok ([], "none".data) ∧
    "none".data ≠ "raw-text".data :=
  ⟨rfl, rfl, by decide⟩

/-- C7 amended: `"raw-text"` is reported when the `text` field specifically
(not `body`) supplied a truthy candidate whose cleaned form is truthy, no
tier produced records, and the object re-scan found nothing; a candidate
drawn only from `body` reports `"none"` in that situation even though the
locator produced a non-null candidate. -/
theorem c7_amended (raw : JsValue) (s : List Char)
    (ht : clausesText raw = vStr s) (hs : s ≠ [])
    (hp : parseNestedClauses raw = .ok [])
    (ho : extractObjectsFromText (cleanFence s) = [])
    (hc : cleanFence s ≠ []) :
    extractionResult raw = .ok ([], "raw-text".data) :=
  extraction_rawText_aux raw s ht hs hp ho hc

/-- C7 witness: the amended theorem at `{clauses: [{text: "[]"}]}`. -/
theorem c7_amended_witness :
    extractionResult (vObj [("clauses".data, vArr [vObj [("text".data, vStr "[]".data)]])]) =
      .ok ([], "raw-text".data) :=
  c7_amended _ "[]".data rfl (by decide) rfl rfl (by decide)

/-! ## Claim C8 -/

/-- C8 counterexample: the cleaner is total but NOT idempotent.  On
"``````json abc" the first application strips only the first (bare) fence
marker — the regex consumes three backticks and no `json` tag because the
tag is not adjacent — leaving "```json abc", and a second application strips
the now-leading tagged fence, reaching "abc". -/
theorem c8_counterexample :
    cleanFence "``````json abc".data = "```json abc".data ∧
    cleanFence (cleanFence "``````json abc".data) = "abc".data ∧
    cleanFence (cleanFence "``````json abc".data) ≠ cleanFence "``````json abc".data :=
  ⟨rfl, rfl, by decide⟩

/-- C8 amended: the cleaning step is total by construction, and it is
idempotent exactly on inputs whose once-cleaned form contains no residual
fence marker; a second application can strip a further fence that the first
left behind. -/
theorem c8_amended (s : List Char) (h : ¬ fence3 <:+: cleanFence s) :
    cleanFence (cleanFence s) = cleanFence s := by
  have h1 : cleanFence (cleanFence s) = trimJs (cleanFence s) := by
    show trimJs (trailFenceRemove (fenceRemove (cleanFence s))) = trimJs (cleanFence s)
    rw [fenceRemove_of_no_fence h, trailFenceRemove_of_no_fence h]
  rw [h1]
  show trimJs (trimJs (trailFenceRemove (fenceRemove s))) = trimJs (trailFenceRemove (fenceRemove s))
  exact trimJs_idem _

/-- C8 witness: idempotence at a concrete fenced input whose cleaned form
has no fence left. -/
theorem c8_amended_witness :
    cleanFence (cleanFence "```json [1] ```".data) = cleanFence "```json [1] ```".data :=
  c8_amended _ (by decide)

/-! ## Claim C10 -/

/-- C10: when the `text`-field candidate's cleaned form strictly parses to
an empty JSON array, the pipeline returns zero records at the strict tier
(no later tier runs — the strict tier's success short-circuits the
pipeline), and the component reports `"raw-text"`, not `"array"`: a parsed
empty array is indistinguishable at the output boundary from a candidate on
which every tier failed. -/
theorem c10_empty_array_raw_text (raw : JsValue) (s : List Char)
    (ht : clausesText raw = vStr s) (hs : s ≠ [])
    (hparse : jsonParse (cleanFence s) = some (vArr [])) :
    parseNestedClauses raw = .ok [] ∧
    extractionResult raw = .ok ([], "raw-text".data) := by
  obtain ⟨hmem, hne⟩ := jsonParse_arr_nil hparse
  have hnb : ∀ c ∈ cleanFence s, c ≠ '{' := by
    intro c hc heq
    rcases hmem c hc with h | h | h
    · rw [heq] at h; exact absurd h (by decide)
    · rw [heq] at h; exact absurd h (by decide)
    · rw [heq] at h; exact absurd h (by decide)
  have ho : extractObjectsFromText (cleanFence s) = [] := by
    unfold extractObjectsFromText
    rw [objSpans_nil_of_no_brace _ hnb]
    rfl
  have hp : parseNestedClauses raw = .ok [] :=
    parseNested_nil_of_empty_array raw s ht hs hparse
  exact ⟨hp, extraction_rawText_aux raw s ht hs hp ho hne⟩

/-- C10 witness: a fenced empty array — `{clauses: [{text: "```json\n[]\n```"}]}`
— cleans to `"[]"`, parses empty, and reports `raw-text` with no records. -/
theorem c10_empty_array_raw_text_witness :
    parseNestedClauses (vObj [("clauses".data,
        vArr [vObj [("text".data, vStr "```json\n[]\n```".data)]])]) = .ok [] ∧
    extractionResult (vObj [("clauses".data,
        vArr [vObj [("text".data, vStr "```json\n[]\n```".data)]])]) =
      .ok ([], "raw-text".data) :=
  c10_empty_array_raw_text _ "```json\n[]\n```".data rfl (by decide) rfl

end RagContract
